import Mathlib

/-!
Shallow embedding of `Lib/urllib/url.py` (classes `URLPath`, `URLQuery`, `URL`
and the helper `_clear_unsafe_bytes`), together with models of the
`urllib.parse`, `encodings.idna` and `ipaddress` library routines that file
calls.  Those library routines live elsewhere in the repository (not under the
sources examined here), so they are modelled from the specification, each with
a doc comment saying so.

Python strings are Lean `String`s (a `List Char` underneath).  A Python
attribute that is unset or `None` is modelled as `none`.  Setters become
functions from the current object state and the assigned value to
`Except PyErr` of the new state; `URLPath.__setitem__`, whose body mutates the
list before it can fail, instead returns the possibly-raised exception
together with the final contents of the list.
-/

/-- Python exceptions raised by the embedded code, identified by class and
message. -/
inductive PyErr where
  | valueError (msg : String)
  | typeError (msg : String)
  | unicodeError (msg : String)
deriving DecidableEq, Repr

/-- Embeds `_GEN_DELIMS = ":/?#[]@"` (url.py line 9). -/
def GEN_DELIMS : String := ":/?#[]@"

/-- Embeds `_SUB_DELIMS = "!$&'()*+,;="` (url.py line 10). -/
def SUB_DELIMS : String := "!$&\x27()*+,;="

/-- Embeds `_RESERVED = _GEN_DELIMS + _SUB_DELIMS` (url.py line 11). -/
def RESERVED : String := GEN_DELIMS ++ SUB_DELIMS

/-- Python `string.ascii_letters`. -/
def ASCII_LETTERS : String := "abcdefghijklmnopqrstuvwxyzABCDEFGHIJKLMNOPQRSTUVWXYZ"

/-- Python `string.digits`. -/
def DIGITS : String := "0123456789"

/-- Embeds `_UNRESERVED = string.ascii_letters + string.digits + '-_.~'`
(url.py line 12). -/
def UNRESERVED : String := ASCII_LETTERS ++ DIGITS ++ "-_.~"

/-- Embeds `_PCT = '%'` (url.py line 13). -/
def PCT : String := "%"

/-- Python single-character `str.split(sep)`: splits on every occurrence of
`sep`; the result always has at least one (possibly empty) piece. -/
def pySplit (sep : Char) : List Char → List (List Char)
  | [] => [[]]
  | c :: rest =>
    if c = sep then [] :: pySplit sep rest
    else
      match pySplit sep rest with
      | [] => [[c]]
      | h :: t => (c :: h) :: t

/-- Python `str.split(sep, 1)` (`maxsplit=1`): at most one split, at the first
occurrence of `sep`. -/
def pySplitOnce (sep : Char) : List Char → List (List Char)
  | [] => [[]]
  | c :: rest =>
    if c = sep then [[], rest]
    else
      match pySplitOnce sep rest with
      | [] => [[c]]
      | h :: t => (c :: h) :: t

/-- Python `sep.join(pieces)` for a single-character separator, at the
character-list level. -/
def joinSep (sep : Char) : List (List Char) → List Char
  | [] => []
  | [x] => x
  | x :: y :: ys => x ++ sep :: joinSep sep (y :: ys)

/-- UTF-8 encoding of a code point, as a list of byte values. -/
def utf8Bytes (n : Nat) : List Nat :=
  if n < 0x80 then [n]
  else if n < 0x800 then [0xC0 + n / 0x40, 0x80 + n % 0x40]
  else if n < 0x10000 then [0xE0 + n / 0x1000, 0x80 + n / 0x40 % 0x40, 0x80 + n % 0x40]
  else [0xF0 + n / 0x40000, 0x80 + n / 0x1000 % 0x40, 0x80 + n / 0x40 % 0x40, 0x80 + n % 0x40]

/-- Uppercase hexadecimal digit, as produced by CPython percent-escapes. -/
def hexUpper (n : Nat) : Char :=
  if n < 10 then Char.ofNat (48 + n) else Char.ofNat (55 + n)

/-- Modelled from the spec (Glossary, "Percent-encoding"): one character of
CPython `urllib.parse.quote` output (repository code outside the examined
sources).  A UTF-8 byte of the input is kept when it is always-safe (ASCII
letters, digits, `_.-~` — the same set as `UNRESERVED`) or listed in `safe`;
every other byte is escaped as `%` followed by two uppercase hex digits.
Every `safe` argument appearing in url.py is a list of ASCII characters, so
keeping whole characters rather than bytes is exact here. -/
def quoteChar (safe : List Char) (c : Char) : List Char :=
  if UNRESERVED.data.contains c || safe.contains c then [c]
  else (utf8Bytes c.toNat).flatMap (fun b => ['%', hexUpper (b / 16), hexUpper (b % 16)])

/-- Modelled from the spec (Glossary, "Percent-encoding"): CPython
`urllib.parse.quote(s, safe)`.  The default `safe` in CPython is `"/"`; call
sites below pass the default explicitly. -/
def pyQuote (safe : String) (s : String) : String :=
  ⟨s.data.flatMap (quoteChar safe.data)⟩

/-- Modelled from the spec (§4.3 `toString`): CPython `urllib.parse.quote_plus`
with empty `safe`, as used by `urlencode` — quote with the space character
safe, then turn each space into `+`. -/
def pyQuotePlus (s : String) : String :=
  ⟨(pyQuote " " s).data.map (fun c => if c = ' ' then '+' else c)⟩

/-- Modelled from the spec (§4.3 `toString`): CPython `urllib.parse.urlencode`
on a mapping — percent-encode keys and values, join each pair with `=`, join
entries with `&`. -/
def pyUrlencode (pairs : List (String × String)) : String :=
  String.intercalate "&" (pairs.map (fun kv => pyQuotePlus kv.1 ++ "=" ++ pyQuotePlus kv.2))

/-- Embeds `URLPath.__init__` with a `str` argument (url.py lines 18-19):
split on `/`; `str(element)` is the identity on the resulting substrings.
The model of a `URLPath` value is its list of segment strings. -/
def URLPath_ofString (s : String) : List String :=
  (pySplit '/' s.data).map String.mk

/-- Embeds `URLPath.__init__` with an iterable argument (url.py lines 20-21):
each element is stringified; on a list of strings `str` is the identity. -/
def URLPath_ofSeq (l : List String) : List String := l

/-- Embeds `URLPath.__str__` (url.py lines 29-30):
`'/'.join([parse.quote(element) for element in self])`.  Note that
`parse.quote` is called with its default `safe="/"`. -/
def URLPath_str (l : List String) : String :=
  ⟨joinSep '/' (l.map (fun s => (pyQuote "/" s).data))⟩

/-- Value assigned through `URLPath.__setitem__`.  The `ByteString` branch of
the source (lines 53-54, UTF-8 decode then split) behaves as the string branch
and is not exercised by any claim, so it is not given a separate constructor. -/
inductive SetVal where
  | vstr (s : String)
  | vseq (l : List String)
deriving DecidableEq, Repr

/-- Embeds `URLPath.__setitem__` (url.py lines 44-60) as a state transformer
returning the possibly-raised exception together with the final contents of
the list.  `values` is computed (lines 51-56), `copy = self.copy()` (line 57),
the list is cleared (line 58), and then the argument of `self.extend` on
lines 59-60 is evaluated.  That argument is the single expression
`copy[:n] + list(values) / + copy[n+1:]` — the `/` ending line 59 is part of
the expression, not a line continuation — so Python evaluates `copy[:n]`,
`list(values)` and then the unary-plus operand `+copy[n+1:]`, which raises
TypeError (unary `+` is undefined on a list subclass).  `extend` never runs
and the instance is left cleared. -/
def URLPath_setitem (self : List String) (key : Int) (v : SetVal) :
    Option PyErr × List String :=
  let values : List String :=
    match v with
    | .vstr s => (pySplit '/' s.data).map String.mk
    | .vseq l => l
  let n : Int := if key < 0 then (self.length : Int) + key else key
  let copy := self
  let _ := values
  let _ := n
  let _ := copy
  (some (.typeError "bad operand type for unary +: \x27URLPath\x27"), [])

/-- Modelled from the spec (§4.2, indexed write): the splice that url.py
lines 44-60 intend — replace the single element at the normalized index with
all the split values. -/
def URLPath_setitem_intended (self : List String) (key : Int) (v : SetVal) :
    List String :=
  let values : List String :=
    match v with
    | .vstr s => (pySplit '/' s.data).map String.mk
    | .vseq l => l
  let n : Nat := (if key < 0 then (self.length : Int) + key else key).toNat
  self.take n ++ values ++ self.drop (n + 1)

/-- The value stored in the `_port` attribute: Python is dynamically typed and
the `URL.port` setter (url.py lines 230-241) stores a `str` for string input
but the integer itself for integer input. -/
inductive PortVal where
  | pstr (s : String)
  | pint (n : Int)
deriving DecidableEq, Repr

/-- The state of a `URL` object: its attributes.  `none` models an attribute
that is unset or holds Python `None`.  The class annotations of url.py
(lines 85-91) declare `_scheme`, `_userinfo`, `_host`, `_port`, `_segment`,
`query` and `path`; the constructor only ever assigns the first four. -/
structure URLState where
  scheme : String
  userinfo : Option String := none
  host : Option String := none
  port : Option PortVal := none
  segment : Option String := none
  path : Option (List String) := none
  query : Option (List (String × String)) := none
deriving DecidableEq, Repr

/-- Embeds CPython `urllib.parse.scheme_chars` (repository code outside the
examined sources; modelled from the spec §4.1: the scheme character set —
letters, digits and `+-.`). -/
def SCHEME_CHARS : String := ASCII_LETTERS ++ DIGITS ++ "+-."

/-- Python `str.lower` restricted to ASCII.  Every string this development
applies it to is ASCII (hosts after IDNA encoding, scheme strings that passed
the scheme character check). -/
def asciiLower (s : String) : String :=
  ⟨s.data.map (fun c => if 'A' ≤ c ∧ c ≤ 'Z' then Char.ofNat (c.toNat + 32) else c)⟩

/-- Embeds the `URL.scheme` setter (url.py lines 140-149). -/
def scheme_set (st : URLState) (s : String) : Except PyErr URLState :=
  if s = "" then .error (.valueError "Scheme cannot be empty.")
  else if ¬ s.data.all (fun c => SCHEME_CHARS.data.contains c) then
    .error (.valueError "Scheme contains illegal characters.")
  else if ¬ ASCII_LETTERS.data.contains (s.data.headD ' ') then
    .error (.valueError "Scheme is of illegal format")
  else .ok { st with scheme := asciiLower s }

/-- The `safe` argument of the quote call in the `URL.userinfo` setter
(url.py line 160): `':' + _SUB_DELIMS + _PCT`. -/
def UI_SAFE : String := ":" ++ SUB_DELIMS ++ PCT

/-- The character set the `URL.userinfo` setter validates against
(url.py line 161): `_SUB_DELIMS + ':' + _UNRESERVED + _PCT`. -/
def UI_ALLOWED : String := SUB_DELIMS ++ ":" ++ UNRESERVED ++ PCT

/-- Embeds the `URL.userinfo` setter (url.py lines 155-164).  `None` and the
empty string are falsy and store `None`. -/
def userinfo_set (st : URLState) (u : Option String) : Except PyErr URLState :=
  match u with
  | none => .ok { st with userinfo := none }
  | some s =>
    if s = "" then .ok { st with userinfo := none }
    else
      let q := pyQuote UI_SAFE s
      if ¬ q.data.all (fun c => UI_ALLOWED.data.contains c) then
        .error (.valueError "User info contains illegal characters.")
      else .ok { st with userinfo := some q }

/-- Modelled from the spec (§4.1 host, Glossary "IDNA"): Python
`str.encode("idna")` followed by `bytes.decode("utf-8")` (repository code
outside the examined sources).  For ASCII input the codec takes a fast path:
split on `.`, require every label except the last to have length 1-63 and the
last to have length below 64, and return the input unchanged.  The non-ASCII
nameprep/punycode path is not modelled (reported as a UnicodeError here);
every input that reaches this function in the statements below is ASCII. -/
def idnaEncode (s : String) : Except PyErr String :=
  if s = "" then .ok ""
  else if s.data.all (fun c => c.toNat < 128) then
    let labels := pySplit '.' s.data
    if labels.dropLast.any (fun l => l.length = 0 || 64 ≤ l.length) then
      .error (.unicodeError "label empty or too long")
    else if 64 ≤ (labels.getLastD []).length then
      .error (.unicodeError "label too long")
    else .ok s
  else .error (.unicodeError "idna nameprep path not modelled")

/-- Hexadecimal digit test, for the IPv6 literal model. -/
def isHexChar (c : Char) : Bool :=
  c.isDigit || ('a' ≤ c && c ≤ 'f') || ('A' ≤ c && c ≤ 'F')

/-- Modelled from the spec (§4.1 host: "Attempts to parse the result as an
IPv6 literal"): the acceptance set of `ipaddress.IPv6Address` (repository code
outside the examined sources), simplified.  An IPv6 literal is colon-separated
groups of at most four hex digits, eight groups, or fewer with a single `::`
abbreviation.  An IPv6 literal always contains a colon, and in url.py the
host character check rejects `:` before this parse is reached, so only the
colon-free (always false) case is ever exercised. -/
def isIPv6Literal (s : String) : Bool :=
  let groups := pySplit ':' s.data
  let full := groups.filter (fun g => g.length ≠ 0)
  let emptyCount := groups.length - full.length
  s.data.contains ':' &&
  full.all (fun g => g.length ≤ 4 && g.all isHexChar) &&
  (if emptyCount = 0 then groups.length = 8
   else emptyCount ≤ 3 && groups.length ≤ 9)

/-- The character set the `URL.host` setter validates against
(url.py line 217): `_SUB_DELIMS + _PCT + _UNRESERVED`. -/
def HOST_ALLOWED : String := SUB_DELIMS ++ PCT ++ UNRESERVED

/-- Embeds the core of the `URL.host` setter on a string argument
(url.py lines 212-224): IDNA-encode, validate the characters, then either
bracket an IPv6 literal or lowercase and store. -/
def hostStore (h : String) : Except PyErr String :=
  if h = "" then .error (.valueError "Host cannot be empty.")
  else
    match idnaEncode h with
    | .error e => .error e
    | .ok e =>
      if ¬ e.data.all (fun c => HOST_ALLOWED.data.contains c) then
        .error (.valueError "Host contains illegal characters.")
      else if isIPv6Literal e then .ok ("[" ++ e ++ "]")
      else .ok (asciiLower e)

/-- Embeds the `URL.host` setter (url.py lines 212-224); `None` is falsy and
rejected like the empty string. -/
def host_set (st : URLState) (h : Option String) : Except PyErr URLState :=
  match h with
  | none => .error (.valueError "Host cannot be empty.")
  | some s => (hostStore s).map (fun v => { st with host := some v })

/-- The argument given to the `URL.port` setter (a `str`, an `int`, or
`None`). -/
inductive PortArg where
  | vnone
  | vstr (s : String)
  | vint (n : Int)
deriving DecidableEq, Repr

/-- Python truthiness of a port argument: `None`, `""` and `0` are falsy. -/
def portTruthy : PortArg → Bool
  | .vnone => false
  | .vstr s => s ≠ ""
  | .vint n => n ≠ 0

/-- Embeds the `URL.port` setter (url.py lines 230-241).  `str.isdigit` is
modelled on ASCII strings (Unicode digit categories are not modelled).  Note
the integer branch stores the integer itself (`self._port = _port`). -/
def port_set (st : URLState) (p : PortArg) : Except PyErr URLState :=
  if ¬ portTruthy p then .ok { st with port := none }
  else
    match p with
    | .vnone => .ok { st with port := none }
    | .vstr s =>
      if ¬ s.data.all Char.isDigit then
        .error (.valueError "Port cannot be a non-numerical value.")
      else .ok { st with port := some (.pstr s) }
    | .vint n => .ok { st with port := some (.pint n) }

/-- Embeds `_clear_unsafe_bytes` (url.py lines 276-279) with CPython
`urllib.parse._UNSAFE_URL_BYTES_TO_REMOVE` (repository code outside the
examined sources; modelled from the spec §4.1: a fixed removal set of control
characters — tab, carriage return, newline).  Sequential single-character
`str.replace` calls equal one filter. -/
def clearUnsafeBytes (s : String) : String :=
  ⟨s.data.filter (fun c => c ≠ '\t' && c ≠ '\r' && c ≠ '\n')⟩

/-- Embeds the `URL.authority` getter (url.py lines 243-253). -/
def authority_get (st : URLState) : Except PyErr URLState × Option String :=
  match st.host with
  | none => (.error (.valueError "Cannot get authority while host is empty."), none)
  | some h =>
    if h = "" then (.error (.valueError "Cannot get authority while host is empty."), none)
    else
      let ui := match st.userinfo with
        | some u => if u ≠ "" then u ++ "@" else ""
        | none => ""
      let pt := match st.port with
        | some (.pstr p) => if p ≠ "" then ":" ++ p else ""
        | some (.pint n) => if n ≠ 0 then ":" ++ toString n else ""
        | none => ""
      (.ok st, some (ui ++ h ++ pt))

/-- Embeds the `URL.authority` setter (url.py lines 255-270).  After removing
unsafe bytes, a falsy (empty) remainder makes the setter return silently with
no mutation.  Otherwise the string is percent-encoded with `safe="@:"`, split
on every `@`; the piece after the last `@` is split once on `:` into host
(assigned through the full host setter) and, when present, port (assigned
directly to `_port`); when the split produced more than one piece the piece
before the first `@` is assigned directly to `_userinfo`. -/
def authority_set (st : URLState) (a : String) : Except PyErr URLState :=
  if a = "" then .error (.valueError "Authority cannot be empty.")
  else
    let a1 := clearUnsafeBytes a
    if a1 = "" then .ok st
    else
      let a2 := pyQuote "@:" a1
      let parts := pySplit '@' a2.data
      let hostAndPort := pySplitOnce ':' (parts.getLastD [])
      match host_set st (some ⟨hostAndPort.headD []⟩) with
      | .error e => .error e
      | .ok st1 =>
        let st2 :=
          if 1 < hostAndPort.length then
            { st1 with port := some (.pstr ⟨hostAndPort.getD 1 []⟩) }
          else st1
        let st3 :=
          if 1 < parts.length then
            { st2 with userinfo := some ⟨parts.headD []⟩ }
          else st2
        .ok st3

/-- The `path` argument of the `URL` constructor (a `str`, a `list`, or
`None`). -/
inductive PathArg where
  | pathNone
  | pathStr (s : String)
  | pathList (l : List String)
deriving DecidableEq, Repr

/-- The `query` argument of the `URL` constructor (a `str`, a `dict`, or
`None`). -/
inductive QueryArg where
  | queryNone
  | queryStr (s : String)
  | queryDict (pairs : List (String × String))
deriving DecidableEq, Repr

/-- Python truthiness of an optional string. -/
def optTruthy : Option String → Bool
  | none => false
  | some s => s ≠ ""

/-- Embeds `URL.__init__` (url.py lines 93-134).  After the scheme assignment
and the authority/host argument checks, either the authority setter or the
individual userinfo/host/port setters run.  Lines 118-134 then normalize the
`path` and `query` arguments into the local variables `path` and `query` —
which are never assigned to `self.path` or `self.query`, so the computed
values are dropped and the attributes stay unset.  The `segment` parameter is
never used at all. -/
def URL_init (scheme : String) (authority userinfo host : Option String)
    (port : PortArg) (path : PathArg) (query : QueryArg)
    (segment : Option String) : Except PyErr URLState := do
  let st1 ← scheme_set { scheme := "" } scheme
  if optTruthy authority ∧ (optTruthy host ∨ portTruthy port ∨ optTruthy userinfo) then
    throw (.valueError "Cannot define authority together with one or more of its component parts.")
  else if ¬ optTruthy authority ∧ ¬ optTruthy host then
    throw (.valueError "Cannot leave the host field empty.")
  else
    let st2 ←
      if optTruthy authority then authority_set st1 (authority.getD "")
      else do
        let a ← userinfo_set st1 userinfo
        let b ← host_set a host
        port_set b port
    let _normalizedPath : Option String :=
      match path with
      | .pathList l => some (String.intercalate "/" (l.map (fun e => pyQuote "" e)))
      | .pathStr s => if s ≠ "" then some (pyQuote "/" s) else none
      | .pathNone => none
    let _normalizedQuery : Option String :=
      match query with
      | .queryDict pairs =>
        some (pyUrlencode (pairs.map (fun kv => (pyQuote "/" kv.1, pyQuote "/" kv.2))))
      | .queryStr s => if s ≠ "" then some (pyQuote "?&=" s) else none
      | .queryNone => none
    let _ := segment
    pure st2

/-- Embeds `URL.__str__` (url.py lines 272-273): the body is the placeholder
`return "<WIP>"`. -/
def URL_str (_u : URLState) : String := "<WIP>"

/-- Modelled from the spec (§4.1 Rendering): the intended composition
`scheme ":" ["//" authority] path ["?" query] ["#" fragment]`, with the
authority composed as `[userinfo "@"] host [":" port]` and included only when
the host is set, the query included with `?` only when non-empty and the
fragment with `#` only when set. -/
def specRender (u : URLState) : String :=
  let auth :=
    match u.host with
    | none => ""
    | some h =>
      "//" ++ (match u.userinfo with | some ui => ui ++ "@" | none => "") ++ h ++
      (match u.port with
       | some (.pstr p) => ":" ++ p
       | some (.pint n) => ":" ++ toString n
       | none => "")
  let pathStr := URLPath_str (u.path.getD [])
  let queryStr :=
    match u.query with
    | some pairs => if pairs ≠ [] then "?" ++ pyUrlencode pairs else ""
    | none => ""
  let fragStr :=
    match u.segment with
    | some f => "#" ++ f
    | none => ""
  u.scheme ++ ":" ++ auth ++ pathStr ++ queryStr ++ fragStr

/-! ### Helper lemmas about the string primitives -/

theorem string_mk_data (s : String) : String.mk s.data = s := rfl

theorem string_data_eq_nil {s : String} (h : s.data = []) : s = "" := by
  cases s
  simp_all

theorem pySplit_ne_nil (sep : Char) (l : List Char) : pySplit sep l ≠ [] := by
  induction l with
  | nil => simp [pySplit]
  | cons c r ih =>
    unfold pySplit
    split
    · simp
    · cases hm : pySplit sep r with
      | nil => simp
      | cons a t => simp [hm]

theorem pySplit_of_not_mem {sep : Char} : ∀ {l : List Char}, sep ∉ l → pySplit sep l = [l]
  | [], _ => rfl
  | c :: r, h => by
    have hc : c ≠ sep := fun hh => h (hh ▸ List.mem_cons_self c r)
    have hr : sep ∉ r := fun hh => h (List.mem_cons_of_mem c hh)
    unfold pySplit
    rw [if_neg (fun hh => hc hh), pySplit_of_not_mem hr]

theorem pySplit_headD (sep : Char) (l : List Char) :
    (pySplit sep l).headD [] = l.takeWhile (fun c => c != sep) := by
  induction l with
  | nil => rfl
  | cons c r ih =>
    unfold pySplit
    by_cases hc : c = sep
    · simp [hc, List.takeWhile_cons]
    · cases hm : pySplit sep r with
      | nil => exact absurd hm (pySplit_ne_nil sep r)
      | cons a t =>
        rw [hm] at ih
        simp only [List.headD_cons] at ih
        simp [hc, hm, List.takeWhile_cons, bne_iff_ne, ih]

theorem pySplit_gt_one_iff (sep : Char) (l : List Char) :
    1 < (pySplit sep l).length ↔ sep ∈ l := by
  induction l with
  | nil => simp [pySplit]
  | cons c r ih =>
    unfold pySplit
    by_cases hc : c = sep
    · cases hm : pySplit sep r with
      | nil => exact absurd hm (pySplit_ne_nil sep r)
      | cons a t => simp [hc, hm]
    · cases hm : pySplit sep r with
      | nil => exact absurd hm (pySplit_ne_nil sep r)
      | cons a t =>
        rw [hm] at ih
        simp only [List.length_cons] at ih
        simp [hc, hm, ih, Ne.symm hc]

theorem takeWhile_bne_append_sep (sep : Char) (l : List Char) :
    (l ++ [sep]).takeWhile (fun c => c != sep) = l.takeWhile (fun c => c != sep) := by
  induction l with
  | nil => simp
  | cons a r ih =>
    by_cases ha : a = sep <;>
      simp [List.takeWhile_cons, ha, ih, bne_iff_ne]

theorem takeWhile_bne_of_not_mem {sep : Char} : ∀ {l : List Char}, sep ∉ l →
    l.takeWhile (fun c => c != sep) = l
  | [], _ => rfl
  | a :: r, h => by
    have ha : a ≠ sep := fun hh => h (hh ▸ List.mem_cons_self a r)
    have hr : sep ∉ r := fun hh => h (List.mem_cons_of_mem a hh)
    simp [List.takeWhile_cons, bne_iff_ne, ha, takeWhile_bne_of_not_mem hr]

theorem takeWhile_bne_append_of_mem {sep : Char} : ∀ {l : List Char}, sep ∈ l → ∀ l2,
    (l ++ l2).takeWhile (fun c => c != sep) = l.takeWhile (fun c => c != sep)
  | [], h, _ => absurd h (List.not_mem_nil sep)
  | a :: r, h, l2 => by
    by_cases ha : a = sep
    · simp [List.takeWhile_cons, ha]
    · have hr : sep ∈ r := by
        rcases List.mem_cons.1 h with h1 | h1
        · exact absurd h1.symm ha
        · exact h1
      simp [List.takeWhile_cons, bne_iff_ne, ha, takeWhile_bne_append_of_mem hr l2]

theorem getLastD_of_ne_nil {α} {l : List α} (h : l ≠ []) (d d' : α) :
    l.getLastD d = l.getLastD d' := by
  cases l with
  | nil => exact absurd rfl h
  | cons a t => rw [List.getLastD_cons, List.getLastD_cons]

theorem pySplit_cons_self (sep : Char) (r : List Char) :
    pySplit sep (sep :: r) = [] :: pySplit sep r := by
  conv_lhs => unfold pySplit
  rw [if_pos rfl]

theorem pySplit_cons_of_ne {sep c : Char} (h : c ≠ sep) {r : List Char}
    {a : List Char} {t : List (List Char)} (hm : pySplit sep r = a :: t) :
    pySplit sep (c :: r) = (c :: a) :: t := by
  unfold pySplit
  rw [if_neg h, hm]

theorem pySplit_dest (sep : Char) (r : List Char) :
    ∃ a t, pySplit sep r = a :: t := by
  cases hm : pySplit sep r with
  | nil => exact absurd hm (pySplit_ne_nil sep r)
  | cons a t => exact ⟨a, t, rfl⟩

theorem pySplit_getLastD (sep : Char) (l : List Char) :
    (pySplit sep l).getLastD [] =
      (l.reverse.takeWhile (fun c => c != sep)).reverse := by
  induction l with
  | nil => rfl
  | cons c r ih =>
    obtain ⟨a, t, hm⟩ := pySplit_dest sep r
    rw [hm, List.getLastD_cons] at ih
    by_cases hc : c = sep
    · subst hc
      rw [pySplit_cons_self, hm, List.getLastD_cons, List.getLastD_cons, ih,
        List.reverse_cons, takeWhile_bne_append_sep]
    · rw [pySplit_cons_of_ne hc hm, List.getLastD_cons]
      by_cases hmem : sep ∈ r
      · have ht : t ≠ [] := by
          have h1 := (pySplit_gt_one_iff sep r).2 hmem
          rw [hm] at h1
          simp only [List.length_cons] at h1
          intro he
          rw [he] at h1
          simp at h1
        rw [getLastD_of_ne_nil ht (c :: a) a, ih, List.reverse_cons,
          takeWhile_bne_append_of_mem (List.mem_reverse.2 hmem)]
      · have h1 : pySplit sep r = [r] := pySplit_of_not_mem hmem
        rw [hm] at h1
        injection h1 with h1a h1b
        subst h1b
        rw [h1a]
        have hnm : sep ∉ (r.reverse ++ [c]) := by
          intro hx
          rcases List.mem_append.1 hx with hx | hx
          · exact hmem (List.mem_reverse.1 hx)
          · exact hc (List.mem_singleton.1 hx).symm
        rw [List.reverse_cons, takeWhile_bne_of_not_mem hnm]
        simp

theorem pySplitOnce_ne_nil (sep : Char) (l : List Char) : pySplitOnce sep l ≠ [] := by
  induction l with
  | nil => simp [pySplitOnce]
  | cons c r ih =>
    unfold pySplitOnce
    split
    · simp
    · cases hm : pySplitOnce sep r with
      | nil => simp
      | cons a t => simp [hm]

theorem pySplitOnce_cons_self (sep : Char) (r : List Char) :
    pySplitOnce sep (sep :: r) = [[], r] := by
  conv_lhs => unfold pySplitOnce
  rw [if_pos rfl]

theorem pySplitOnce_cons_of_ne {sep c : Char} (h : c ≠ sep) {r : List Char}
    {a : List Char} {t : List (List Char)} (hm : pySplitOnce sep r = a :: t) :
    pySplitOnce sep (c :: r) = (c :: a) :: t := by
  unfold pySplitOnce
  rw [if_neg h, hm]

theorem pySplitOnce_dest (sep : Char) (r : List Char) :
    ∃ a t, pySplitOnce sep r = a :: t := by
  cases hm : pySplitOnce sep r with
  | nil => exact absurd hm (pySplitOnce_ne_nil sep r)
  | cons a t => exact ⟨a, t, rfl⟩

theorem pySplitOnce_headD (sep : Char) (l : List Char) :
    (pySplitOnce sep l).headD [] = l.takeWhile (fun c => c != sep) := by
  induction l with
  | nil => rfl
  | cons c r ih =>
    obtain ⟨a, t, hm⟩ := pySplitOnce_dest sep r
    rw [hm, List.headD_cons] at ih
    by_cases hc : c = sep
    · subst hc
      rw [pySplitOnce_cons_self]
      simp [List.takeWhile_cons]
    · rw [pySplitOnce_cons_of_ne hc hm, List.headD_cons]
      simp [List.takeWhile_cons, bne_iff_ne, hc, ih]

theorem pySplitOnce_of_mem {sep : Char} : ∀ {l : List Char}, sep ∈ l →
    pySplitOnce sep l =
      [l.takeWhile (fun c => c != sep), (l.dropWhile (fun c => c != sep)).tail]
  | [], h => absurd h (List.not_mem_nil sep)
  | c :: r, h => by
    by_cases hc : c = sep
    · subst hc
      rw [pySplitOnce_cons_self]
      simp [List.takeWhile_cons, List.dropWhile_cons]
    · have hr : sep ∈ r := by
        rcases List.mem_cons.1 h with h1 | h1
        · exact absurd h1.symm hc
        · exact h1
      have hm := pySplitOnce_of_mem hr
      rw [pySplitOnce_cons_of_ne hc hm]
      simp [List.takeWhile_cons, List.dropWhile_cons, bne_iff_ne, hc]

theorem pySplitOnce_of_not_mem {sep : Char} : ∀ {l : List Char}, sep ∉ l →
    pySplitOnce sep l = [l]
  | [], _ => rfl
  | c :: r, h => by
    have hc : c ≠ sep := fun hh => h (hh ▸ List.mem_cons_self c r)
    have hr : sep ∉ r := fun hh => h (List.mem_cons_of_mem c hh)
    rw [pySplitOnce_cons_of_ne hc (pySplitOnce_of_not_mem hr)]

theorem pySplitOnce_gt_one_iff (sep : Char) (l : List Char) :
    1 < (pySplitOnce sep l).length ↔ sep ∈ l := by
  by_cases hmem : sep ∈ l
  · rw [pySplitOnce_of_mem hmem]
    simpa using hmem
  · rw [pySplitOnce_of_not_mem hmem]
    simpa using hmem

/-! ### Lemmas about the percent-encoding model -/

theorem char_toNat_lt (c : Char) : c.toNat < 1114112 := by
  have h : c.val.toNat < 0xd800 ∨ (0xdfff < c.val.toNat ∧ c.val.toNat < 0x110000) := c.valid
  rcases h with h | h
  · exact Nat.lt_trans h (by norm_num)
  · exact h.2

theorem utf8Bytes_lt {n : Nat} (hn : n < 1114112) : ∀ b ∈ utf8Bytes n, b < 256 := by
  intro b hb
  unfold utf8Bytes at hb
  by_cases h1 : n < 0x80
  · simp only [if_pos h1, List.mem_singleton] at hb
    omega
  · by_cases h2 : n < 0x800
    · simp only [if_neg h1, if_pos h2, List.mem_cons, List.not_mem_nil, or_false] at hb
      rcases hb with hb | hb <;> omega
    · by_cases h3 : n < 0x10000
      · simp only [if_neg h1, if_neg h2, if_pos h3, List.mem_cons, List.not_mem_nil,
          or_false] at hb
        rcases hb with hb | hb | hb <;> omega
      · simp only [if_neg h1, if_neg h2, if_neg h3, List.mem_cons, List.not_mem_nil,
          or_false] at hb
        rcases hb with hb | hb | hb | hb <;> omega

theorem utf8Bytes_ne_nil (n : Nat) : utf8Bytes n ≠ [] := by
  unfold utf8Bytes
  split_ifs <;> simp

theorem hexUpper_unreserved {n : Nat} (h : n < 16) :
    UNRESERVED.data.contains (hexUpper n) = true := by
  interval_cases n <;> decide

theorem quoteChar_kept {safe : List Char} {c : Char}
    (h : (UNRESERVED.data.contains c || safe.contains c) = true) :
    quoteChar safe c = [c] := by
  unfold quoteChar
  rw [if_pos h]

theorem quoteChar_output_kept {safe : List Char} (hs : safe.contains '%' = true)
    (c : Char) : ∀ x ∈ quoteChar safe c,
      (UNRESERVED.data.contains x || safe.contains x) = true := by
  intro x hx
  unfold quoteChar at hx
  by_cases h : (UNRESERVED.data.contains c || safe.contains c) = true
  · rw [if_pos h, List.mem_singleton] at hx
    subst hx
    exact h
  · rw [if_neg h] at hx
    obtain ⟨b, hb, hxb⟩ := List.mem_flatMap.1 hx
    have hblt : b < 256 := utf8Bytes_lt (char_toNat_lt c) b hb
    simp only [List.mem_cons, List.not_mem_nil, or_false] at hxb
    rcases hxb with hxb | hxb | hxb
    · subst hxb
      rw [hs, Bool.or_true]
    · subst hxb
      rw [hexUpper_unreserved (by omega), Bool.true_or]
    · subst hxb
      rw [hexUpper_unreserved (by omega), Bool.true_or]

theorem quoteChar_ne_nil (safe : List Char) (c : Char) : quoteChar safe c ≠ [] := by
  unfold quoteChar
  split
  · simp
  · obtain ⟨b, t, hb⟩ : ∃ b t, utf8Bytes c.toNat = b :: t := by
      cases h : utf8Bytes c.toNat with
      | nil => exact absurd h (utf8Bytes_ne_nil _)
      | cons b t => exact ⟨b, t, rfl⟩
    rw [hb]
    simp

theorem flatMap_fixed {α} (f : α → List α) :
    ∀ l : List α, (∀ x ∈ l, f x = [x]) → l.flatMap f = l
  | [], _ => rfl
  | a :: l, h => by
    have hcons : (a :: l).flatMap f = f a ++ l.flatMap f := rfl
    rw [hcons, h a (List.mem_cons_self a l),
      flatMap_fixed f l (fun x hx => h x (List.mem_cons_of_mem a hx))]
    rfl

theorem pyQuote_idem {safe : String} (hs : safe.data.contains '%' = true)
    (s : String) : pyQuote safe (pyQuote safe s) = pyQuote safe s := by
  unfold pyQuote
  congr 1
  apply flatMap_fixed
  intro x hx
  obtain ⟨c, _, hxc⟩ := List.mem_flatMap.1 hx
  exact quoteChar_kept (quoteChar_output_kept hs c x hxc)

theorem pyQuote_ne_empty (safe : String) {s : String} (h : s ≠ "") :
    pyQuote safe s ≠ "" := by
  intro hcon
  apply h
  have hd : s.data.flatMap (quoteChar safe.data) = [] := congrArg String.data hcon
  cases hs : s.data with
  | nil => exact string_data_eq_nil hs
  | cons a l =>
    rw [hs] at hd
    have hcons : (a :: l).flatMap (quoteChar safe.data) =
        quoteChar safe.data a ++ l.flatMap (quoteChar safe.data) := rfl
    rw [hcons] at hd
    exact absurd (List.append_eq_nil.1 hd).1 (quoteChar_ne_nil _ _)

theorem pyQuote_uiSafe_allowed (s : String) :
    (pyQuote UI_SAFE s).data.all (fun c => UI_ALLOWED.data.contains c) = true := by
  rw [List.all_eq_true]
  intro c hc
  have hc2 : c ∈ s.data.flatMap (quoteChar UI_SAFE.data) := hc
  obtain ⟨c0, _, hcc⟩ := List.mem_flatMap.1 hc2
  have hkept := quoteChar_output_kept (by decide) c0 c hcc
  rcases Bool.or_eq_true_iff.1 hkept with hk | hk
  · have hmem : c ∈ UNRESERVED.data := List.elem_iff.1 hk
    have hsub : ∀ x ∈ UNRESERVED.data, x ∈ UI_ALLOWED.data := by decide
    exact List.elem_iff.2 (hsub c hmem)
  · have hmem : c ∈ UI_SAFE.data := List.elem_iff.1 hk
    have hsub : ∀ x ∈ UI_SAFE.data, x ∈ UI_ALLOWED.data := by decide
    exact List.elem_iff.2 (hsub c hmem)

/-! ### Lemmas about join and re-split -/

theorem joinSep_cons_of_ne (sep : Char) (x : List Char) {r : List (List Char)}
    (h : r ≠ []) : joinSep sep (x :: r) = x ++ sep :: joinSep sep r := by
  cases r with
  | nil => exact absurd rfl h
  | cons y ys => rfl

theorem pySplit_append_of_not_mem {sep : Char} :
    ∀ {x : List Char}, sep ∉ x → ∀ r : List Char,
      pySplit sep (x ++ sep :: r) = x :: pySplit sep r
  | [], _, r => by
    simpa using pySplit_cons_self sep r
  | a :: y, h, r => by
    have ha : a ≠ sep := fun hh => h (hh ▸ List.mem_cons_self a y)
    have hy : sep ∉ y := fun hh => h (List.mem_cons_of_mem a hh)
    have hrec := pySplit_append_of_not_mem hy r
    rw [List.cons_append, pySplit_cons_of_ne ha hrec]

theorem pySplit_joinSep {sep : Char} :
    ∀ ls : List (List Char), ls ≠ [] → (∀ x ∈ ls, sep ∉ x) →
      pySplit sep (joinSep sep ls) = ls
  | [], hne, _ => absurd rfl hne
  | [x], _, h => by
    have : joinSep sep [x] = x := rfl
    rw [this, pySplit_of_not_mem (h x (List.mem_singleton.2 rfl))]
  | x :: y :: ys, _, h => by
    rw [joinSep_cons_of_ne sep x (by simp),
      pySplit_append_of_not_mem (h x (List.mem_cons_self x (y :: ys))),
      pySplit_joinSep (y :: ys) (by simp)
        (fun z hz => h z (List.mem_cons_of_mem x hz))]

theorem joinSep_splice (sep : Char) :
    ∀ (A : List (List Char)) (x y : List Char) (B : List (List Char)),
      joinSep sep (A ++ (x ++ sep :: y) :: B) = joinSep sep (A ++ x :: y :: B)
  | [], x, y, B => by
    cases B with
    | nil => rfl
    | cons b bs =>
      rw [List.nil_append, List.nil_append,
        joinSep_cons_of_ne sep (x ++ sep :: y) (by simp),
        joinSep_cons_of_ne sep x (by simp),
        joinSep_cons_of_ne sep y (by simp)]
      simp
  | a :: A, x, y, B => by
    rw [List.cons_append, List.cons_append,
      joinSep_cons_of_ne sep a (by simp),
      joinSep_cons_of_ne sep a (by simp),
      joinSep_splice sep A x y B]

theorem pyQuote_data_append (safe s t : String) :
    (pyQuote safe (s ++ t)).data = (pyQuote safe s).data ++ (pyQuote safe t).data := by
  show (s ++ t).data.flatMap (quoteChar safe.data) = _
  have hd : (s ++ t).data = s.data ++ t.data := rfl
  rw [hd, List.flatMap_append]
  rfl

theorem pyQuote_slash_seg (s t : String) :
    (pyQuote "/" (s ++ "/" ++ t)).data =
      (pyQuote "/" s).data ++ '/' :: (pyQuote "/" t).data := by
  rw [pyQuote_data_append, pyQuote_data_append]
  have h : (pyQuote "/" "/").data = ['/'] := by decide
  rw [h]
  simp

theorem pyQuote_unreserved_id {s : String}
    (h : s.data.all (fun c => UNRESERVED.data.contains c) = true) :
    pyQuote "/" s = s := by
  unfold pyQuote
  have hfix : s.data.flatMap (quoteChar ("/" : String).data) = s.data := by
    apply flatMap_fixed
    intro x hx
    apply quoteChar_kept
    rw [List.all_eq_true] at h
    rw [h x hx, Bool.true_or]
  rw [hfix]

/-! ### Positional slicing helpers used to state the authority decomposition -/

/-- The part of `l` before the first occurrence of `sep` (all of `l` when
`sep` is absent). -/
def beforeFirst (sep : Char) (l : List Char) : List Char :=
  l.takeWhile (fun c => c != sep)

/-- The part of `l` after the first occurrence of `sep` (empty when `sep` is
absent). -/
def afterFirst (sep : Char) (l : List Char) : List Char :=
  (l.dropWhile (fun c => c != sep)).tail

/-- The part of `l` after the last occurrence of `sep` (all of `l` when `sep`
is absent). -/
def afterLast (sep : Char) (l : List Char) : List Char :=
  (l.reverse.takeWhile (fun c => c != sep)).reverse

/-- A URL state used as the starting point of concrete setter calls:
the result of `URL("http", host="example.com")`. -/
def baseState : URLState :=
  { scheme := "http", host := some "example.com" }

/-- The state produced by assigning `"user:pw@example.com:8080"` to the
authority of `baseState`. -/
def authEx : URLState :=
  { scheme := "http", userinfo := some "user:pw", host := some "example.com",
    port := some (.pstr "8080") }

/-! ### Claim theorems -/

/-- Claim C1 (code bug): for the URL constructed by
`URL("http", host="example.com")`, `URL.__str__` returns the placeholder
`"<WIP>"` instead of the §4.1 composition
`scheme ":" ["//" authority] path ["?" query] ["#" fragment]`, which for this
state renders `"http://example.com"`. -/
theorem c1_url_str_placeholder :
    URL_init "http" none none (some "example.com") .vnone .pathNone .queryNone none
      = .ok baseState ∧
    URL_str baseState = "<WIP>" ∧
    specRender baseState = "http://example.com" ∧
    URL_str baseState ≠ specRender baseState :=
  ⟨rfl, rfl, rfl, by decide⟩

/-- Claim C2 (code bug): constructing `URL("http", host="example.com",
path="a/b")` succeeds, but the resulting object has no path and no query —
`URL.__init__` normalizes the `path`/`query` arguments into local variables
and never assigns `self.path` or `self.query` — whereas the claim expects a
stored PathSequence (here it would be the two segments of
`URLPath_ofString "a/b"`). -/
theorem c2_init_discards_path_query :
    URL_init "http" none none (some "example.com") .vnone (.pathStr "a/b")
        (.queryStr "k=1") none = .ok baseState ∧
    baseState.path = none ∧
    baseState.query = none ∧
    (none : Option (List String)) ≠ some (URLPath_ofString "a/b") :=
  ⟨rfl, rfl, rfl, by decide⟩

/-- Claim C3 (code bug): `URLPath.__setitem__` on `["a","b","c"]` at index 1
with value `"x/y"` raises TypeError (the expression on url.py lines 59-60
applies unary `+` to a list) and leaves the list cleared, instead of
producing the splice `["a","x","y","c"]` that the claim states (and that the
spec-modelled splice produces). -/
theorem c3_setitem_raises :
    URLPath_setitem ["a", "b", "c"] 1 (.vstr "x/y")
      = (some (.typeError "bad operand type for unary +: \x27URLPath\x27"), []) ∧
    URLPath_setitem_intended ["a", "b", "c"] 1 (.vstr "x/y") = ["a", "x", "y", "c"] ∧
    ([] : List String) ≠ ["a", "x", "y", "c"] :=
  ⟨rfl, rfl, by decide⟩

/-- Claim C4 (code bug): a raised error can leave partial mutation behind —
`URLPath.__setitem__` on `["a","b","c"]` raises (first component `isSome`)
yet the final contents are `[]`, not the prior value `["a","b","c"]`, because
the list is cleared before the failing splice expression is evaluated. -/
theorem c4_setitem_partial_mutation :
    (URLPath_setitem ["a", "b", "c"] 1 (.vstr "x/y")).1.isSome = true ∧
    (URLPath_setitem ["a", "b", "c"] 1 (.vstr "x/y")).2 = [] ∧
    ([] : List String) ≠ ["a", "b", "c"] :=
  ⟨rfl, rfl, by decide⟩

/-- Claim C5 counterexample: assigning authority `"a@b@c.com"` stores
userinfo `"a"` — the part before the FIRST `@` — not `"a@b"`, the part
before the final `@` that the claim requires (the middle piece is dropped). -/
theorem c5_counterexample :
    authority_set baseState "a@b@c.com"
      = .ok { baseState with userinfo := some "a", host := some "c.com" } ∧
    some ("a" : String) ≠ some "a@b" :=
  ⟨rfl, by decide⟩

/-- Claim C6 (code bug): setting host `"::1"` raises
`ValueError("Host contains illegal characters.")` because `:` is not in the
allowed set checked on url.py line 217, so the IPv6 branch on lines 220-222
is unreachable, even though the IPv6-literal parse itself accepts `"::1"`;
the claim expects success with stored host `"[::1]"`. -/
theorem c6_host_ipv6_rejected :
    host_set baseState (some "::1")
      = .error (.valueError "Host contains illegal characters.") ∧
    isIPv6Literal "::1" = true ∧
    (Except.error (PyErr.valueError "Host contains illegal characters.")
        : Except PyErr URLState)
      ≠ .ok { baseState with host := some "[::1]" } :=
  ⟨rfl, rfl, fun h => by cases h⟩

/-- Claim C7 counterexample: the port setter given the integer `8080` stores
the integer itself (`self._port = _port`), not the decimal string `"8080"`
the claim requires. -/
theorem c7_counterexample :
    port_set baseState (.vint 8080) = .ok { baseState with port := some (.pint 8080) } ∧
    some (PortVal.pint 8080) ≠ some (PortVal.pstr "8080") :=
  ⟨rfl, by decide⟩

/-- Claim C8 counterexample: a `/` stored inside a segment is NOT
percent-encoded by `URLPath.__str__` — the segment `"a/b"` renders as
`"a/b"`, not `"a%2Fb"`, because `parse.quote` is called with its default
`safe="/"`. -/
theorem c8_counterexample :
    URLPath_str ["a/b"] = "a/b" ∧
    ("a/b" : String) ≠ "a%2Fb" ∧
    "a/b".data.contains '/' = true :=
  ⟨rfl, by decide, by decide⟩

/-- Claim C9 counterexample: `"a b"` is a plain-ASCII segment containing no
reserved character, yet rendering `["a b"]` and re-parsing yields
`["a%20b"]`, not `["a b"]` — the string constructor only splits on `/` and
never percent-decodes. -/
theorem c9_counterexample :
    URLPath_ofString (URLPath_str (URLPath_ofSeq ["a b"])) = ["a%20b"] ∧
    (["a%20b"] : List String) ≠ ["a b"] ∧
    "a b".data.all (fun c => c.toNat < 128 && !RESERVED.data.contains c) = true :=
  ⟨rfl, by decide, by decide⟩

/-- Claim C10 (confirmed): for every string the userinfo setter accepted,
assigning the stored value a second time stores the same value — the whole
state is unchanged.  The second `parse.quote` pass keeps `%` (it is in the
`safe` set of url.py line 160), so escape introducers are not re-escaped. -/
theorem userinfo_set_idempotent (st st2 : URLState) (u w : String)
    (h1 : userinfo_set st (some u) = .ok st2)
    (h2 : st2.userinfo = some w) :
    userinfo_set st2 (some w) = .ok st2 := by
  by_cases hu : u = ""
  · simp only [userinfo_set, if_pos hu] at h1
    injection h1 with h1e
    rw [← h1e] at h2
    simp at h2
  · have hall := pyQuote_uiSafe_allowed u
    simp only [userinfo_set, if_neg hu, hall, Bool.not_true, not_false_iff,
      if_neg (show ¬¬(pyQuote UI_SAFE u).data.all (fun c => UI_ALLOWED.data.contains c) = true
        from by rw [hall]; exact not_not_intro rfl)] at h1
    injection h1 with h1e
    have hw : pyQuote UI_SAFE u = w := by
      rw [← h1e] at h2
      simpa using h2
    have hwne : w ≠ "" := hw ▸ pyQuote_ne_empty UI_SAFE hu
    have hidem : pyQuote UI_SAFE w = w := by
      rw [← hw]
      exact pyQuote_idem (by decide) u
    have hall2 := pyQuote_uiSafe_allowed w
    simp only [userinfo_set, if_neg hwne,
      if_neg (show ¬¬(pyQuote UI_SAFE w).data.all (fun c => UI_ALLOWED.data.contains c) = true
        from by rw [hall2]; exact not_not_intro rfl)]
    rw [hidem]
    have hrec : { st2 with userinfo := some w } = st2 := by
      cases st2
      simp only [URLState.mk.injEq, and_true, true_and]
      simp only [] at h2
      rw [h2]
    rw [hrec]

/-- Witness for `userinfo_set_idempotent`: the first call stores
`"user%20pw"` for input `"user pw"`, and re-assigning `"user%20pw"` leaves
the state unchanged. -/
theorem userinfo_set_idempotent_witness :
    userinfo_set baseState (some "user pw")
      = .ok { baseState with userinfo := some "user%20pw" } ∧
    userinfo_set { baseState with userinfo := some "user%20pw" } (some "user%20pw")
      = .ok { baseState with userinfo := some "user%20pw" } :=
  ⟨rfl, userinfo_set_idempotent baseState
    { baseState with userinfo := some "user%20pw" } "user pw" "user%20pw" rfl rfl⟩

/-- Claim C7 (amended): `None` and falsy inputs (`""`, `0`) clear the port;
a non-empty string of digits is stored as that string; a non-empty string
containing a non-digit raises; a non-zero integer is stored as the integer
itself (not converted to a string). -/
theorem port_set_spec (st : URLState) :
    port_set st .vnone = .ok { st with port := none } ∧
    port_set st (.vstr "") = .ok { st with port := none } ∧
    port_set st (.vint 0) = .ok { st with port := none } ∧
    (∀ s : String, s ≠ "" → s.data.all Char.isDigit = true →
      port_set st (.vstr s) = .ok { st with port := some (.pstr s) }) ∧
    (∀ s : String, s ≠ "" → s.data.all Char.isDigit = false →
      port_set st (.vstr s) = .error (.valueError "Port cannot be a non-numerical value.")) ∧
    (∀ n : Int, n ≠ 0 → port_set st (.vint n) = .ok { st with port := some (.pint n) }) := by
  refine ⟨rfl, rfl, rfl, ?_, ?_, ?_⟩
  · intro s hs hd
    simp [port_set, portTruthy, hs, hd]
  · intro s hs hd
    simp [port_set, portTruthy, hs, hd]
  · intro n hn
    simp [port_set, portTruthy, hn]

/-- Witness for `port_set_spec`: concrete instances of the digit-string,
non-digit-string and integer cases. -/
theorem port_set_spec_witness :
    port_set baseState (.vstr "80") = .ok { baseState with port := some (.pstr "80") } ∧
    port_set baseState (.vstr "8x")
      = .error (.valueError "Port cannot be a non-numerical value.") ∧
    port_set baseState (.vint 8080) = .ok { baseState with port := some (.pint 8080) } :=
  ⟨(port_set_spec baseState).2.2.2.1 "80" (by decide) (by decide),
   (port_set_spec baseState).2.2.2.2.1 "8x" (by decide) (by decide),
   (port_set_spec baseState).2.2.2.2.2 8080 (by decide)⟩

/-- Claim C8 (amended): `URLPath.__str__` percent-encodes each segment with
quote's default safe set — which keeps `/` unescaped — and joins with `/`;
consequently a `/` inside a stored segment renders exactly like a separator:
a segment `s ++ "/" ++ t` renders the same as the two segments `s, t`. -/
theorem path_str_slash_transparent :
    (∀ (pre post : List String) (s t : String),
      URLPath_str (pre ++ (s ++ "/" ++ t) :: post)
        = URLPath_str (pre ++ s :: t :: post)) ∧
    pyQuote "/" "/" = "/" := by
  refine ⟨?_, rfl⟩
  intro pre post s t
  unfold URLPath_str
  congr 1
  rw [List.map_append, List.map_append, List.map_cons, List.map_cons, List.map_cons,
    pyQuote_slash_seg]
  exact joinSep_splice '/' (pre.map _) _ _ _

/-- Claim C9 (amended): for every NONEMPTY sequence of segments whose
characters are all unreserved (ASCII letters, digits, `-_.~`), rendering with
`URLPath.__str__` and re-parsing through the string constructor yields the
same segment sequence. -/
theorem path_roundtrip_unreserved (l : List String) (h1 : l ≠ [])
    (h2 : ∀ s ∈ l, s.data.all (fun c => UNRESERVED.data.contains c) = true) :
    URLPath_ofString (URLPath_str (URLPath_ofSeq l)) = URLPath_ofSeq l := by
  unfold URLPath_ofSeq at *
  show (pySplit '/' (joinSep '/' (l.map (fun s => (pyQuote "/" s).data)))).map String.mk = l
  have hq : l.map (fun s => (pyQuote "/" s).data) = l.map String.data :=
    List.map_eq_map_iff.mpr (fun s hs => by rw [pyQuote_unreserved_id (h2 s hs)])
  rw [hq, pySplit_joinSep (l.map String.data) (by simpa using h1) ?hmem]
  case hmem =>
    intro x hx hslash
    obtain ⟨s, hs, rfl⟩ := List.mem_map.1 hx
    have hall := h2 s hs
    rw [List.all_eq_true] at hall
    have := hall '/' hslash
    simp [UNRESERVED, ASCII_LETTERS, DIGITS] at this
  rw [List.map_map]
  have hid : String.mk ∘ String.data = id := funext string_mk_data
  rw [hid, List.map_id]

/-- Witness for `path_roundtrip_unreserved`: the unreserved segments
`["abc", "x-y"]` round-trip. -/
theorem path_roundtrip_unreserved_witness :
    URLPath_ofString (URLPath_str (URLPath_ofSeq ["abc", "x-y"]))
      = URLPath_ofSeq ["abc", "x-y"] :=
  path_roundtrip_unreserved ["abc", "x-y"] (by decide)
    (by intro s hs; fin_cases hs <;> decide)

/-- Claim C5 (amended): whenever the authority setter succeeds on an input
whose unsafe-byte-stripped remainder is non-empty, then — writing `q` for
that remainder percent-encoded with `@` and `:` safe — everything after the
LAST `@` of `q` is the host:port remainder, split on its first `:` into a
host (passed through the full host setter, whose output is stored) and, when
a `:` is present, a port; and the userinfo stored (only when `q` contains an
`@`) is everything before the FIRST `@`, not the part before the final `@`
that the claim states — pieces between the first and last `@` are discarded.
Absent a `:` the port keeps its prior value; absent an `@` the userinfo keeps
its prior value. -/
theorem authority_set_decomposition (st st' : URLState) (a : String)
    (h : authority_set st a = .ok st')
    (hne : clearUnsafeBytes a ≠ "") :
    (∃ hv, hostStore ⟨beforeFirst ':'
        (afterLast '@' (pyQuote "@:" (clearUnsafeBytes a)).data)⟩ = .ok hv ∧
      st'.host = some hv) ∧
    st'.port = (if ':' ∈ afterLast '@' (pyQuote "@:" (clearUnsafeBytes a)).data
      then some (.pstr ⟨afterFirst ':'
        (afterLast '@' (pyQuote "@:" (clearUnsafeBytes a)).data)⟩)
      else st.port) ∧
    st'.userinfo = (if '@' ∈ (pyQuote "@:" (clearUnsafeBytes a)).data
      then some (String.mk (beforeFirst '@' (pyQuote "@:" (clearUnsafeBytes a)).data))
      else st.userinfo) := by
  have ha : a ≠ "" := by
    intro haa
    apply hne
    rw [haa]
    rfl
  unfold authority_set at h
  rw [if_neg ha, if_neg hne] at h
  simp only [] at h
  set q : List Char := (pyQuote "@:" (clearUnsafeBytes a)).data with hqdef
  have hlast : (pySplit '@' q).getLastD [] = afterLast '@' q := pySplit_getLastD '@' q
  rw [hlast] at h
  set hp : List (List Char) := pySplitOnce ':' (afterLast '@' q) with hpdef
  have hhead : hp.headD [] = beforeFirst ':' (afterLast '@' q) :=
    pySplitOnce_headD ':' (afterLast '@' q)
  cases hh : host_set st (some ⟨hp.headD []⟩) with
  | error e =>
    rw [hh] at h
    cases h
  | ok st1 =>
    rw [hh] at h
    injection h with h3
    obtain ⟨hv, hhs, hst1⟩ :
        ∃ hv, hostStore ⟨hp.headD []⟩ = .ok hv ∧ st1 = { st with host := some hv } := by
      simp only [host_set] at hh
      cases hhs : hostStore ⟨hp.headD []⟩ with
      | error e =>
        rw [hhs] at hh
        simp [Except.map] at hh
      | ok hv =>
        rw [hhs] at hh
        simp only [Except.map] at hh
        refine ⟨hv, rfl, ?_⟩
        injection hh with h4
        exact h4.symm
    subst hst1
    subst h3
    constructor
    · refine ⟨hv, ?_, ?_⟩
      · rw [← hhead]
        exact hhs
      · by_cases hpl : 1 < hp.length <;> by_cases hal : 1 < (pySplit '@' q).length <;>
          simp [hpl, hal]
    constructor
    · by_cases hmem : ':' ∈ afterLast '@' q
      · have hpl : 1 < hp.length := (hpdef ▸ pySplitOnce_gt_one_iff ':' (afterLast '@' q)).2 hmem
        have hpv : hp = [beforeFirst ':' (afterLast '@' q), afterFirst ':' (afterLast '@' q)] := by
          rw [hpdef]
          exact pySplitOnce_of_mem hmem
        rw [if_pos hmem]
        by_cases hal : 1 < (pySplit '@' q).length <;>
          simp [hpl, hal, hpv]
      · have hpl : ¬ 1 < hp.length := by
          rw [hpdef, pySplitOnce_gt_one_iff]
          exact hmem
        rw [if_neg hmem]
        by_cases hal : 1 < (pySplit '@' q).length <;>
          simp [hpl, hal]
    · by_cases hmem : '@' ∈ q
      · have hal : 1 < (pySplit '@' q).length := (pySplit_gt_one_iff '@' q).2 hmem
        have hh0 : (pySplit '@' q).head?.getD [] = beforeFirst '@' q := by
          have h0 := pySplit_headD '@' q
          rwa [List.headD_eq_head?_getD] at h0
        rw [if_pos hmem]
        by_cases hpl : 1 < hp.length <;>
          simp [hpl, hal, hh0]
      · have hal : ¬ 1 < (pySplit '@' q).length := by
          rw [pySplit_gt_one_iff]
          exact hmem
        rw [if_neg hmem]
        by_cases hpl : 1 < hp.length <;>
          simp [hpl, hal]

/-- Witness for `authority_set_decomposition`: assigning
`"user:pw@example.com:8080"` to the authority of `baseState` yields `authEx`
(userinfo `"user:pw"`, host `"example.com"`, port `"8080"`), which satisfies
the decomposition. -/
theorem authority_set_decomposition_witness :
    clearUnsafeBytes "user:pw@example.com:8080" ≠ "" ∧
    ((∃ hv, hostStore ⟨beforeFirst ':'
        (afterLast '@' (pyQuote "@:" (clearUnsafeBytes "user:pw@example.com:8080")).data)⟩
          = .ok hv ∧ authEx.host = some hv) ∧
     authEx.port = (if ':' ∈ afterLast '@'
          (pyQuote "@:" (clearUnsafeBytes "user:pw@example.com:8080")).data
        then some (.pstr ⟨afterFirst ':'
          (afterLast '@' (pyQuote "@:" (clearUnsafeBytes "user:pw@example.com:8080")).data)⟩)
        else baseState.port) ∧
     authEx.userinfo = (if '@' ∈ (pyQuote "@:"
          (clearUnsafeBytes "user:pw@example.com:8080")).data
        then some (String.mk (beforeFirst '@'
          (pyQuote "@:" (clearUnsafeBytes "user:pw@example.com:8080")).data))
        else baseState.userinfo)) :=
  ⟨by decide,
   authority_set_decomposition baseState authEx "user:pw@example.com:8080" rfl (by decide)⟩
